import Mathlib

/-!
Verification of the FreshRoles matching and deduplication engine.

The definitions below are a shallow embedding of the Python source files
`freshroles/matching/keyword.py`, `freshroles/matching/scorer.py` and
`freshroles/matching/dedup.py` together with the data model in
`freshroles/models/job.py` and `freshroles/models/company.py`.

Modelling conventions:
* Python floats are modelled as rationals where the source only adds and
  divides rationals (keyword scores, simhash similarities) and as real
  numbers where square roots or provider-supplied similarities occur
  (recency score, vector score, final score).
* Timestamps are POSIX seconds, modelled as real numbers; the current
  wall-clock time is passed explicitly.
* The md5 word hash used by simhash and the sha256 digest behind
  `JobPosting.id` are cryptographic primitives external to the algorithm;
  they are passed in as function parameters.
* Python string formatting of a float (the `:.2f` in one reason string)
  is likewise passed in as a function parameter.
-/

namespace FreshRoles

/-- A single-quote character, used inside reason messages. -/
def sq : String := "\x27"

/-- ASCII word character, Python regex class w. -/
def isWordChar (c : Char) : Bool := c.isAlphanum || c == '_'

/-- Lower-cased character list of a string. -/
def lowerChars (s : String) : List Char := s.data.map Char.toLower

/-- Consume `k` as a literal prefix of `t`, returning the remaining text. -/
def stripPfx : List Char → List Char → Option (List Char)
  | [], t => some t
  | _ :: _, [] => none
  | k :: ks, c :: cs => if k = c then stripPfx ks cs else none

/-- Wordness of the first character, default `d` for the empty list. -/
def hdWC (d : Bool) : List Char → Bool
  | [] => d
  | c :: _ => isWordChar c

/-- Wordness of the last character, default `d` for the empty list. -/
def lastWC (d : Bool) : List Char → Bool
  | [] => d
  | [c] => isWordChar c
  | _ :: cs => lastWC d cs

/-- Does the compiled pattern b`k`b match at the current position of `t`?
`pw` is the wordness of the character immediately before this position
(false at the start of the text). A b boundary holds where wordness
changes. -/
def matchHere (pw : Bool) (k t : List Char) : Bool :=
  match stripPfx k t with
  | none => false
  | some rest => (pw != hdWC (hdWC false rest) k) && (lastWC pw k != hdWC false rest)

/-- Scan `t` for a whole-word match of `k`, tracking the wordness `pw` of the
character before the current position.  Models `pattern.search` for the
compiled pattern b + escaped keyword + b. -/
def searchBnd (k : List Char) : Bool → List Char → Bool
  | pw, [] => matchHere pw k []
  | pw, c :: cs => matchHere pw k (c :: cs) || searchBnd k (isWordChar c) cs

/-- Case-insensitive whole-word search of `kw` inside `text`: the model of
`re.compile(rf"b(escaped kw)b", re.I).search(text)` from
`KeywordScorer._compile_patterns`. -/
def wordSearch (kw text : String) : Bool :=
  searchBnd (lowerChars kw) false (lowerChars text)

/-- Substring containment on character lists, the model of the Python
`needle in hay` test. -/
def listInfix (k : List Char) : List Char → Bool
  | [] => k.isEmpty
  | c :: cs => k.isPrefixOf (c :: cs) || listInfix k cs

/-- Characters escaped by `re.escape` (CPython's special-character set). -/
def reSpecial : List Char :=
  ['(', ')', '[', ']', '\x7b', '\x7d', '?', '*', '+', '-', '|', '^', '$',
   '\\', '.', '&', '~', '#', ' ', '\t', '\n', '\r', '\x0b', '\x0c']

/-- Model of `re.escape`: backslash every special character. -/
def reEscape (s : String) : String :=
  String.mk (s.data.foldr
    (fun c acc => if c ∈ reSpecial then '\\' :: c :: acc else c :: acc) [])

/-- The text of the compiled pattern `rf"b(re.escape kw)b"` as reported by
`pattern.pattern` and used in reason messages. -/
def patStr (kw : String) : String := "\\b" ++ reEscape kw ++ "\\b"

/-- Whitespace predicate, Python regex class s. -/
def isWsChar (c : Char) : Bool := c.isWhitespace

/-- Split a character list into maximal runs of non-whitespace characters;
`cur` holds the (reversed) run being accumulated. -/
def splitWsAux : List Char → List Char → List (List Char)
  | cur, [] => if cur.isEmpty then [] else [cur.reverse]
  | cur, c :: cs =>
      if isWsChar c then
        if cur.isEmpty then splitWsAux [] cs else cur.reverse :: splitWsAux [] cs
      else splitWsAux (c :: cur) cs

/-- The word list of `normalize_text(s)`: lowercase, drop characters that are
neither word characters nor whitespace, split on whitespace. -/
def normWords (s : String) : List String :=
  (splitWsAux [] ((lowerChars s).filter (fun c => isWordChar c || isWsChar c))).map
    (fun l => String.mk l)

/-- Model of `dedup.normalize_text`: lowercase, remove punctuation, collapse
whitespace runs to one space, trim. -/
def normalize_text (s : String) : String :=
  String.intercalate " " (normWords s)

/-! Data model, from `freshroles/models/enums.py`, `job.py`, `company.py`. -/

/-- Applicant tracking system kinds (`ATSType`). -/
inductive ATSType where
  | greenhouse | lever | workday | icims | smartrecruiters
  | successfactors | taleo | ashby | unknown
deriving DecidableEq, Repr

/-- The string value of an `ATSType` member. -/
def ATSType.val : ATSType → String
  | greenhouse => "greenhouse"
  | lever => "lever"
  | workday => "workday"
  | icims => "icims"
  | smartrecruiters => "smartrecruiters"
  | successfactors => "successfactors"
  | taleo => "taleo"
  | ashby => "ashby"
  | unknown => "unknown"

/-- Remote-work classification (`RemoteType`). -/
inductive RemoteType where
  | onsite | hybrid | remote | unknown
deriving DecidableEq, Repr

/-- The string value of a `RemoteType` member. -/
def RemoteType.val : RemoteType → String
  | onsite => "onsite"
  | hybrid => "hybrid"
  | remote => "remote"
  | unknown => "unknown"

/-- A normalized job posting (`models/job.py`); only the fields read by the
matching engine are kept.  `posted_at` is a POSIX timestamp in seconds. -/
structure JobPosting where
  company : String
  title : String
  source_job_id : String
  source_system : ATSType
  location : Option String := none
  remote_type : RemoteType := RemoteType.unknown
  department : Option String := none
  posted_at : Option ℝ := none
  description_text : Option String := none
  requirements : List String := []

/-- Model of `JobPosting.get_searchable_text`: join title, description (when
non-empty), requirements and department (when non-empty) with spaces.  Empty
strings are skipped because they are falsy in the Python conditionals. -/
def JobPosting.get_searchable_text (j : JobPosting) : String :=
  String.intercalate " "
    ([j.title]
      ++ (match j.description_text with
          | some d => if d = "" then [] else [d]
          | none => [])
      ++ j.requirements
      ++ (match j.department with
          | some d => if d = "" then [] else [d]
          | none => []))

/-- User matching preferences (`models/company.py`, `MatchingProfile`). -/
structure MatchingProfile where
  desired_roles : List String := []
  must_have_keywords : List String := []
  must_not_keywords : List String := []
  preferred_locations : List String := []
  remote_preference : Option RemoteType := none
  min_score_threshold : ℝ := 0.3
  vector_weight : ℝ := 0.55
  keyword_weight : ℝ := 0.30
  recency_weight : ℝ := 0.15

/-- A job posting together with its scores (`models/job.py`,
`ScoredJobPosting`). -/
structure ScoredJobPosting where
  job : JobPosting
  final_score : ℝ := 0.0
  vector_score : ℝ := 0.0
  keyword_score : ℝ := 0.0
  recency_score : ℝ := 0.0
  match_reasons : List String := []

/-! Keyword and recency scorers, from `freshroles/matching/keyword.py`. -/

/-- First desired role whose pattern matches the job title (the source's role
loop breaks on the first hit). -/
def KeywordScorer.roleHit (p : MatchingProfile) (j : JobPosting) :
    Option String :=
  p.desired_roles.find? (fun r => wordSearch r j.title)

/-- Role contribution: 0.4 for the first desired-role match on the title. -/
def KeywordScorer.roleScore (p : MatchingProfile) (j : JobPosting) : ℚ :=
  match KeywordScorer.roleHit p j with
  | some _ => 0.4
  | none => 0

/-- The reason recorded for a desired-role match. -/
def KeywordScorer.roleReasons (p : MatchingProfile) (j : JobPosting) :
    List String :=
  match KeywordScorer.roleHit p j with
  | some r => ["Role match: " ++ patStr r]
  | none => []

/-- The must-have keywords matching the searchable text, in list order. -/
def KeywordScorer.matchedKws (p : MatchingProfile) (j : JobPosting) :
    List String :=
  p.must_have_keywords.filter (fun kw => wordSearch kw j.get_searchable_text)

/-- Must-have contribution: matched fraction times 0.4, or a flat 0.2 when no
must-have keyword is configured. -/
def KeywordScorer.kwPartScore (p : MatchingProfile) (j : JobPosting) : ℚ :=
  if p.must_have_keywords.isEmpty then 0.2
  else ((KeywordScorer.matchedKws p j).length : ℚ)
    / (p.must_have_keywords.length : ℚ) * 0.4

/-- One reason per matched must-have keyword. -/
def KeywordScorer.kwReasons (p : MatchingProfile) (j : JobPosting) :
    List String :=
  (KeywordScorer.matchedKws p j).map (fun kw => "Keyword: " ++ patStr kw)

/-- First preferred location contained in the job's location (both
lower-cased); skipped when the job location is absent or empty or no
preferred locations are configured. -/
def KeywordScorer.locHit (p : MatchingProfile) (j : JobPosting) :
    Option String :=
  match j.location with
  | none => none
  | some loc =>
      if loc = "" then none
      else if p.preferred_locations.isEmpty then none
      else p.preferred_locations.find?
        (fun pl => listInfix (lowerChars pl) (lowerChars loc))

/-- Location contribution: 0.1 for a preferred-location hit. -/
def KeywordScorer.locScore (p : MatchingProfile) (j : JobPosting) : ℚ :=
  match KeywordScorer.locHit p j with
  | some _ => 0.1
  | none => 0

/-- The reason recorded for a location hit. -/
def KeywordScorer.locReasons (p : MatchingProfile) (j : JobPosting) :
    List String :=
  match KeywordScorer.locHit p j with
  | some pl => ["Location: " ++ pl]
  | none => []

/-- Remote-preference hit: a preference is configured and matches the job. -/
def KeywordScorer.remHit (p : MatchingProfile) (j : JobPosting) : Bool :=
  match p.remote_preference with
  | some r => j.remote_type = r
  | none => false

/-- Remote contribution: 0.1 for a remote-preference hit. -/
def KeywordScorer.remScore (p : MatchingProfile) (j : JobPosting) : ℚ :=
  if KeywordScorer.remHit p j then 0.1 else 0

/-- The reason recorded for a remote-preference hit. -/
def KeywordScorer.remReasons (p : MatchingProfile) (j : JobPosting) :
    List String :=
  if KeywordScorer.remHit p j then ["Remote: " ++ j.remote_type.val] else []

/-- Model of `KeywordScorer.score`.  The keyword score is an exact rational.
Must-not short-circuit on the first matching pattern; otherwise the four
signal contributions above are summed and clamped to at most 1, and the
reasons are collected in the source's append order. -/
def KeywordScorer.score (p : MatchingProfile) (j : JobPosting) :
    ℚ × List String :=
  match p.must_not_keywords.find?
      (fun kw => wordSearch kw j.get_searchable_text) with
  | some kw => (0, ["Excluded: contains " ++ sq ++ patStr kw ++ sq])
  | none =>
    (min (KeywordScorer.roleScore p j + KeywordScorer.kwPartScore p j
        + KeywordScorer.locScore p j + KeywordScorer.remScore p j) 1,
      KeywordScorer.roleReasons p j ++ KeywordScorer.kwReasons p j
        ++ KeywordScorer.locReasons p j ++ KeywordScorer.remReasons p j)

/-- Model of `RecencyScorer.score` with explicit current time `now`
(the source reads the wall clock).  Both times are POSIX seconds. -/
noncomputable def RecencyScorer.score (max_age_days : ℝ) (now : ℝ)
    (posted_at : Option ℝ) : ℝ :=
  match posted_at with
  | none => 0.5
  | some posted =>
    let age_days := (now - posted) / 86400
    if age_days ≤ 0 then 1.0
    else if max_age_days ≤ age_days then 0.0
    else max 0.0 (min 1.0 (1.0 - Real.sqrt (age_days / max_age_days)))

/-! Embedding providers (`freshroles/matching/embeddings/`) and the combined
scorer (`freshroles/matching/scorer.py`). -/

/-- An embedding provider: either the neutral `NoEmbeddingProvider` or a real
backend with its `embed` (which may raise, modelled by `Except`) and
`similarity` functions. -/
inductive EmbProvider where
  | noEmbedding (dimension : ℕ)
  | backend (embed : List String → Except Unit (List (List ℝ)))
      (similarity : List ℝ → List ℝ → ℝ)

/-- The provider's `embed` method.  `NoEmbeddingProvider.embed` returns a zero
vector per input text and never raises. -/
noncomputable def EmbProvider.embedCall :
    EmbProvider → List String → Except Unit (List (List ℝ))
  | noEmbedding d, texts => Except.ok (texts.map (fun _ => List.replicate d 0))
  | backend e _, texts => e texts

/-- The provider's `similarity` method.  `NoEmbeddingProvider.similarity`
always returns 0.5. -/
noncomputable def EmbProvider.simCall : EmbProvider → List ℝ → List ℝ → ℝ
  | noEmbedding _, _, _ => 0.5
  | backend _ s, v1, v2 => s v1 v2

/-- Is this provider an instance of `NoEmbeddingProvider`?  Models the
`isinstance` test in `Scorer.score`. -/
def EmbProvider.isNoEmbedding : EmbProvider → Bool
  | noEmbedding _ => true
  | backend _ _ => false

/-- The profile text embedded by `Scorer._get_profile_embedding`: desired
roles and must-have keywords joined with spaces. -/
def Scorer.profile_text (p : MatchingProfile) : String :=
  String.intercalate " " (p.desired_roles ++ p.must_have_keywords)

/-- Model of `Scorer._get_profile_embedding`.  Input: the cached
`_profile_embedding` (`none` = Python `None`).  Output: the value returned
(or the exception raised, via `Except.error`), the cache afterwards, and
whether `embed` was invoked.  A raising `embed` leaves the cache unset. -/
noncomputable def Scorer.get_profile_embedding (p : MatchingProfile)
    (prov : EmbProvider) (cache : Option (List ℝ)) :
    Except Unit (List ℝ) × Option (List ℝ) × Bool :=
  match cache with
  | some v => (Except.ok v, some v, false)
  | none =>
    let ptext := Scorer.profile_text p
    if ptext = "" then (Except.ok [], some [], false)
    else
      match prov.embedCall [ptext] with
      | Except.error e => (Except.error e, none, true)
      | Except.ok [] => (Except.ok [], some [], true)
      | Except.ok (v :: _) => (Except.ok v, some v, true)

/-- The outcome of one `Scorer.score` call: the scored posting, the profile
embedding cache afterwards, and how many times `embed` was invoked on the
profile text during the call. -/
structure ScoreStep where
  result : ScoredJobPosting
  cache : Option (List ℝ)
  profileEmbedCalls : ℕ

/-- The vector-score part of `Scorer.score`: 0.5 for the neutral provider;
otherwise the try block around the profile embedding, job embedding and
similarity call, any failure or empty embedding degrading to 0.5.  Returns
the vector score, the cache afterwards and the number of profile `embed`
invocations. -/
noncomputable def Scorer.vectorStep (p : MatchingProfile) (prov : EmbProvider)
    (cache : Option (List ℝ)) (job : JobPosting) :
    ℝ × Option (List ℝ) × ℕ :=
  if prov.isNoEmbedding then (0.5, cache, 0)
  else
    match Scorer.get_profile_embedding p prov cache with
    | (Except.error _, cache2, inv) => (0.5, cache2, if inv then 1 else 0)
    | (Except.ok pe, cache2, inv) =>
      let n : ℕ := if inv then 1 else 0
      if pe = [] then (0.5, cache2, n)
      else
        match prov.embedCall [job.get_searchable_text] with
        | Except.error _ => (0.5, cache2, n)
        | Except.ok [] => (0.5, cache2, n)
        | Except.ok (je :: _) => ((prov.simCall pe je + 1) / 2, cache2, n)

/-- Model of `Scorer.score`.  `fmt` models Python float formatting
(`:.2f`) in the semantic-similarity reason; `now` is the wall-clock time
read by the recency scorer; `cache` is `_profile_embedding` before the
call. -/
noncomputable def Scorer.score (p : MatchingProfile) (prov : EmbProvider)
    (fmt : ℝ → String) (now : ℝ) (cache : Option (List ℝ))
    (job : JobPosting) : ScoreStep :=
  let ks := KeywordScorer.score p job
  if ks.1 = 0 ∧ ks.2 ≠ [] then
    { result := { job := job, final_score := 0.0, keyword_score := 0.0,
                  match_reasons := ks.2 },
      cache := cache, profileEmbedCalls := 0 }
  else
    let recency_score := RecencyScorer.score 30 now job.posted_at
    let v := Scorer.vectorStep p prov cache job
    let vector_score := v.1
    let final_score := p.vector_weight * vector_score
      + p.keyword_weight * (ks.1 : ℝ) + p.recency_weight * recency_score
    let reasons := ks.2
      ++ (if vector_score > 0.6
          then ["High semantic similarity: " ++ fmt vector_score] else [])
      ++ (if recency_score > 0.7 then ["Recently posted"] else [])
    { result := { job := job, final_score := final_score,
                  vector_score := vector_score, keyword_score := (ks.1 : ℝ),
                  recency_score := recency_score, match_reasons := reasons },
      cache := v.2.1, profileEmbedCalls := v.2.2 }

/-- Score a list of jobs in order, threading the profile-embedding cache and
accumulating the number of profile `embed` invocations: the loop inside
`Scorer.score_batch` before filtering. -/
noncomputable def Scorer.scoreList (p : MatchingProfile) (prov : EmbProvider)
    (fmt : ℝ → String) (now : ℝ) :
    Option (List ℝ) → List JobPosting →
      List ScoredJobPosting × Option (List ℝ) × ℕ
  | cache, [] => ([], cache, 0)
  | cache, j :: js =>
    let st := Scorer.score p prov fmt now cache j
    let rest := Scorer.scoreList p prov fmt now st.cache js
    (st.result :: rest.1, rest.2.1, st.profileEmbedCalls + rest.2.2)

/-- Stable insertion of a scored job into a list sorted by descending
`final_score`; an element inserted later is placed after the equal-scored
elements already present, which is how Python's stable `list.sort` with
`reverse=True` behaves. -/
noncomputable def insertDesc (x : ScoredJobPosting) :
    List ScoredJobPosting → List ScoredJobPosting
  | [] => [x]
  | y :: ys =>
      if x.final_score < y.final_score then y :: insertDesc x ys
      else x :: y :: ys

/-- Stable sort by descending `final_score`: the model of
`scored.sort(key=lambda x: x.final_score, reverse=True)`. -/
noncomputable def sortDesc : List ScoredJobPosting → List ScoredJobPosting
  | [] => []
  | x :: xs => insertDesc x (sortDesc xs)

/-- Model of `Scorer.score_batch`: score every job, retain those whose final
score reaches the threshold (the caller-supplied `min_score`, else the
profile's `min_score_threshold`), and stable-sort descending. -/
noncomputable def Scorer.score_batch (p : MatchingProfile) (prov : EmbProvider)
    (fmt : ℝ → String) (now : ℝ) (cache : Option (List ℝ))
    (jobs : List JobPosting) (min_score : Option ℝ) : List ScoredJobPosting :=
  let threshold := match min_score with
    | some m => m
    | none => p.min_score_threshold
  let scored := (Scorer.scoreList p prov fmt now cache jobs).1
  sortDesc (scored.filter (fun s => decide (threshold ≤ s.final_score)))

/-! Deduplication, from `freshroles/matching/dedup.py`.  The md5 word hash is
an external primitive, passed in as `wordHash`; the sha256 hex digest behind
`JobPosting.id` is passed in as `sha`. -/

/-- Number of set bits, the model of `bin(x).count("1")`. -/
def popcount (n : ℕ) : ℕ :=
  if h : n = 0 then 0 else n % 2 + popcount (n / 2)
decreasing_by exact Nat.div_lt_self (Nat.pos_of_ne_zero h) (by norm_num)

/-- Model of `simhash`: tokenize the normalized text; empty → 0; otherwise
each word's hash votes plus or minus one per bit position; output bit `i` is set when
the tally `v i` is positive. -/
def simhash (wordHash : String → ℕ) (text : String)
    (hash_bits : ℕ := 64) : ℕ :=
  let words := normWords text
  if words.isEmpty then 0
  else
    let v : ℕ → ℤ := fun i =>
      (words.map (fun w => if (wordHash w).testBit i then (1 : ℤ) else -1)).sum
    ((List.range hash_bits).map (fun i => if 0 < v i then 2 ^ i else 0)).sum

/-- Model of `hamming_distance` (the `bits` argument is unused, as in the
source). -/
def hamming_distance (hash1 hash2 : ℕ) (bits : ℕ := 64) : ℕ :=
  popcount (hash1 ^^^ hash2)

/-- Model of `simhash_similarity`: `1 - distance / bits`. -/
def simhash_similarity (hash1 hash2 : ℕ) (bits : ℕ := 64) : ℚ :=
  1 - (hamming_distance hash1 hash2 bits : ℚ) / (bits : ℚ)

/-- The `JobPosting.id` computed field: the first 16 hex characters of the
sha256 digest (`sha`) of the exact key. -/
def JobPosting.jid (sha : String → String) (j : JobPosting) : String :=
  ((sha (j.company ++ ":" ++ j.source_system.val ++ ":" ++ j.source_job_id)).take 16)

/-- Deduplicator state and configuration.  `seen_ids` models the Python set
(membership only); `seen_hashes` models the dict as an association list in
which keys are unique. -/
structure Deduplicator where
  similarity_threshold : ℚ := 0.85
  job_exists_fn : Option (String → Bool) := none
  seen_ids : List String := []
  seen_hashes : List (String × ℕ) := []

/-- Model of `Deduplicator._get_exact_key`. -/
def Deduplicator.exact_key (j : JobPosting) : String :=
  j.company ++ ":" ++ j.source_system.val ++ ":" ++ j.source_job_id

/-- Model of `Deduplicator._get_fuzzy_key`. -/
def Deduplicator.fuzzy_key (j : JobPosting) : String :=
  normalize_text j.title ++ ":"
    ++ normalize_text (match j.location with | some l => l | none => "")

/-- Model of `Deduplicator._get_content_hash`. -/
def Deduplicator.content_hash (wordHash : String → ℕ) (j : JobPosting) : ℕ :=
  simhash wordHash j.get_searchable_text 64

/-- Dict insertion: replace the value of an existing key, else append. -/
def assocInsert (k : String) (v : ℕ) :
    List (String × ℕ) → List (String × ℕ)
  | [] => [(k, v)]
  | (k2, v2) :: rest =>
      if k2 = k then (k, v) :: rest else (k2, v2) :: assocInsert k v rest

/-- The fuzzy-similarity loop of `is_duplicate`: does any stored entry have
this fuzzy key and a simhash similarity at or above the threshold? -/
def Deduplicator.fuzzyHit (d : Deduplicator) (fk : String) (ch : ℕ) : Bool :=
  d.seen_hashes.any (fun e =>
    e.1 == fk && decide (d.similarity_threshold ≤ simhash_similarity ch e.2 64))

/-- Model of `Deduplicator.is_duplicate`: exact-key check, database check,
fuzzy check; a non-duplicate records its exact key and fuzzy fingerprint.
Returns the verdict and the state afterwards. -/
def Deduplicator.is_duplicate (wordHash : String → ℕ) (sha : String → String)
    (d : Deduplicator) (j : JobPosting) : Bool × Deduplicator :=
  let ek := Deduplicator.exact_key j
  if ek ∈ d.seen_ids then (true, d)
  else if (match d.job_exists_fn with
           | some f => f (j.jid sha)
           | none => false) then (true, d)
  else
    let fk := Deduplicator.fuzzy_key j
    let ch := Deduplicator.content_hash wordHash j
    if d.fuzzyHit fk ch then (true, d)
    else (false, { d with seen_ids := d.seen_ids ++ [ek],
                          seen_hashes := assocInsert fk ch d.seen_hashes })

/-- Model of `Deduplicator.dedupe`: filter a job list in order, keeping
non-duplicates, threading the session state (also returned, for reasoning
about the session). -/
def Deduplicator.dedupe (wordHash : String → ℕ) (sha : String → String) :
    Deduplicator → List JobPosting → List JobPosting × Deduplicator
  | d, [] => ([], d)
  | d, j :: js =>
    let r := d.is_duplicate wordHash sha j
    let rest := Deduplicator.dedupe wordHash sha r.2 js
    (if r.1 then rest.1 else j :: rest.1, rest.2)

/-- Model of `Deduplicator.reset`: clear the session state. -/
def Deduplicator.reset (d : Deduplicator) : Deduplicator :=
  { d with seen_ids := [], seen_hashes := [] }

/-! Basic facts about the keyword-scorer components. -/

lemma roleScore_nonneg (p : MatchingProfile) (j : JobPosting) :
    0 ≤ KeywordScorer.roleScore p j := by
  unfold KeywordScorer.roleScore
  cases KeywordScorer.roleHit p j <;> norm_num

lemma kwPartScore_nonneg (p : MatchingProfile) (j : JobPosting) :
    0 ≤ KeywordScorer.kwPartScore p j := by
  unfold KeywordScorer.kwPartScore
  split
  · norm_num
  · exact mul_nonneg (div_nonneg (Nat.cast_nonneg _) (Nat.cast_nonneg _))
      (by norm_num)

lemma locScore_nonneg (p : MatchingProfile) (j : JobPosting) :
    0 ≤ KeywordScorer.locScore p j := by
  unfold KeywordScorer.locScore
  cases KeywordScorer.locHit p j <;> norm_num

lemma remScore_nonneg (p : MatchingProfile) (j : JobPosting) :
    0 ≤ KeywordScorer.remScore p j := by
  unfold KeywordScorer.remScore
  split <;> norm_num

lemma baseSum_nonneg (p : MatchingProfile) (j : JobPosting) :
    0 ≤ KeywordScorer.roleScore p j + KeywordScorer.kwPartScore p j
      + KeywordScorer.locScore p j + KeywordScorer.remScore p j := by
  have h1 := roleScore_nonneg p j
  have h2 := kwPartScore_nonneg p j
  have h3 := locScore_nonneg p j
  have h4 := remScore_nonneg p j
  linarith

lemma keyword_score_nonneg (p : MatchingProfile) (j : JobPosting) :
    0 ≤ (KeywordScorer.score p j).1 := by
  unfold KeywordScorer.score
  cases hfind : p.must_not_keywords.find?
      (fun kw => wordSearch kw j.get_searchable_text) with
  | some kw => simp
  | none => simpa using le_min (baseSum_nonneg p j) zero_le_one

lemma keyword_score_le_one (p : MatchingProfile) (j : JobPosting) :
    (KeywordScorer.score p j).1 ≤ 1 := by
  unfold KeywordScorer.score
  cases hfind : p.must_not_keywords.find?
      (fun kw => wordSearch kw j.get_searchable_text) with
  | some kw => simp
  | none => simpa using min_le_right _ _

lemma roleReasons_ne_nil (p : MatchingProfile) (j : JobPosting)
    (h : KeywordScorer.roleReasons p j ≠ []) :
    KeywordScorer.roleScore p j = 0.4 := by
  unfold KeywordScorer.roleReasons at h
  unfold KeywordScorer.roleScore
  cases hr : KeywordScorer.roleHit p j with
  | some r => rfl
  | none => simp [hr] at h

lemma kwReasons_ne_nil (p : MatchingProfile) (j : JobPosting)
    (h : KeywordScorer.kwReasons p j ≠ []) :
    0 < KeywordScorer.kwPartScore p j := by
  unfold KeywordScorer.kwReasons at h
  have hmatched : KeywordScorer.matchedKws p j ≠ [] := by
    intro hnil
    simp [hnil] at h
  have hsub : p.must_have_keywords ≠ [] := by
    intro hnil
    apply hmatched
    unfold KeywordScorer.matchedKws
    simp [hnil]
  unfold KeywordScorer.kwPartScore
  rw [if_neg (by simpa using hsub)]
  have h1 : (0 : ℚ) < ((KeywordScorer.matchedKws p j).length : ℚ) := by
    exact_mod_cast List.length_pos.mpr hmatched
  have h2 : (0 : ℚ) < (p.must_have_keywords.length : ℚ) := by
    exact_mod_cast List.length_pos.mpr hsub
  have := div_pos h1 h2
  linarith

lemma locReasons_ne_nil (p : MatchingProfile) (j : JobPosting)
    (h : KeywordScorer.locReasons p j ≠ []) :
    KeywordScorer.locScore p j = 0.1 := by
  unfold KeywordScorer.locReasons at h
  unfold KeywordScorer.locScore
  cases hr : KeywordScorer.locHit p j with
  | some r => rfl
  | none => simp [hr] at h

lemma remReasons_ne_nil (p : MatchingProfile) (j : JobPosting)
    (h : KeywordScorer.remReasons p j ≠ []) :
    KeywordScorer.remScore p j = 0.1 := by
  unfold KeywordScorer.remReasons at h
  unfold KeywordScorer.remScore
  cases hr : KeywordScorer.remHit p j with
  | true => simp [hr]
  | false => simp [hr] at h

lemma baseReasons_pos (p : MatchingProfile) (j : JobPosting)
    (h : KeywordScorer.roleReasons p j ++ KeywordScorer.kwReasons p j
      ++ KeywordScorer.locReasons p j ++ KeywordScorer.remReasons p j ≠ []) :
    0 < KeywordScorer.roleScore p j + KeywordScorer.kwPartScore p j
      + KeywordScorer.locScore p j + KeywordScorer.remScore p j := by
  have n1 := roleScore_nonneg p j
  have n2 := kwPartScore_nonneg p j
  have n3 := locScore_nonneg p j
  have n4 := remScore_nonneg p j
  by_cases h1 : KeywordScorer.roleReasons p j = []
  · by_cases h2 : KeywordScorer.kwReasons p j = []
    · by_cases h3 : KeywordScorer.locReasons p j = []
      · by_cases h4 : KeywordScorer.remReasons p j = []
        · exact absurd (by simp [h1, h2, h3, h4]) h
        · have := remReasons_ne_nil p j h4
          linarith
      · have := locReasons_ne_nil p j h3
        linarith
    · have := kwReasons_ne_nil p j h2
      linarith
  · have := roleReasons_ne_nil p j h1
    linarith

/-- C10: `KeywordScorer.score` yields the pair (0, non-empty reasons) exactly
when some must-not phrase matches the job's searchable text; when no must-not
phrase matches, every recorded reason comes with a strictly positive score
contribution, so the pair is an unambiguous exclusion sentinel for the
Scorer's short-circuit test. -/
theorem C10_exclusion_sentinel (p : MatchingProfile) (j : JobPosting) :
    ((KeywordScorer.score p j).1 = 0 ∧ (KeywordScorer.score p j).2 ≠ []) ↔
      ∃ kw ∈ p.must_not_keywords,
        wordSearch kw j.get_searchable_text = true := by
  unfold KeywordScorer.score
  cases hfind : p.must_not_keywords.find?
      (fun kw => wordSearch kw j.get_searchable_text) with
  | some kw =>
    constructor
    · intro _
      have hp := List.find?_some hfind
      exact ⟨kw, List.mem_of_find?_eq_some hfind, by simpa using hp⟩
    · intro _
      exact ⟨rfl, by simp⟩
  | none =>
    constructor
    · rintro ⟨h0, hne⟩
      exfalso
      have hpos : 0 < min (KeywordScorer.roleScore p j
          + KeywordScorer.kwPartScore p j + KeywordScorer.locScore p j
          + KeywordScorer.remScore p j) 1 :=
        lt_min (baseReasons_pos p j (by simpa using hne)) one_pos
      rw [show (min (KeywordScorer.roleScore p j
          + KeywordScorer.kwPartScore p j + KeywordScorer.locScore p j
          + KeywordScorer.remScore p j) 1, KeywordScorer.roleReasons p j
          ++ KeywordScorer.kwReasons p j ++ KeywordScorer.locReasons p j
          ++ KeywordScorer.remReasons p j).1 = min (KeywordScorer.roleScore p j
          + KeywordScorer.kwPartScore p j + KeywordScorer.locScore p j
          + KeywordScorer.remScore p j) 1 from rfl] at h0
      rw [h0] at hpos
      exact lt_irrefl 0 hpos
    · rintro ⟨kw, hmem, hsearch⟩
      have := List.find?_eq_none.mp hfind kw hmem
      simp [hsearch] at this

/-! Claims about the fingerprinting functions. -/

lemma popcount_zero : popcount 0 = 0 := by
  unfold popcount
  rfl

/-- C9: a text that normalizes to no words fingerprints to 0 for every word
hash and bit width; the simhash similarity of any hash with itself is exactly
1; consequently the fingerprints of two empty texts are reported as fully
similar by `simhash_similarity` alone. -/
theorem C9_empty_fingerprint_self_similarity :
    (∀ (wordHash : String → ℕ) (text : String) (bits : ℕ),
      normWords text = [] → simhash wordHash text bits = 0) ∧
    (∀ (h : ℕ) (bits : ℕ), simhash_similarity h h bits = 1) ∧
    (∀ (wordHash : String → ℕ) (t1 t2 : String),
      normWords t1 = [] → normWords t2 = [] →
      simhash_similarity (simhash wordHash t1 64) (simhash wordHash t2 64) 64
        = 1) := by
  have hfp : ∀ (wordHash : String → ℕ) (text : String) (bits : ℕ),
      normWords text = [] → simhash wordHash text bits = 0 := by
    intro wordHash text bits hempty
    unfold simhash
    simp [hempty]
  have hself : ∀ (h : ℕ) (bits : ℕ), simhash_similarity h h bits = 1 := by
    intro h bits
    unfold simhash_similarity hamming_distance
    simp [Nat.xor_self, popcount_zero]
  refine ⟨hfp, hself, ?_⟩
  intro wordHash t1 t2 h1 h2
  rw [hfp wordHash t1 64 h1, hfp wordHash t2 64 h2]
  exact hself 0 64

/-- C9 witness: concrete instances of the three conjuncts. -/
theorem C9_empty_fingerprint_self_similarity_witness :
    normWords " ?! " = [] ∧
    simhash (fun _ => 0) " ?! " 64 = 0 ∧
    simhash_similarity 12345 12345 64 = 1 ∧
    simhash_similarity (simhash (fun _ => 0) " ?! " 64)
      (simhash (fun _ => 0) "" 64) 64 = 1 :=
  ⟨by decide,
    C9_empty_fingerprint_self_similarity.1 (fun _ => 0) " ?! " 64 (by decide),
    C9_empty_fingerprint_self_similarity.2.1 12345 64,
    C9_empty_fingerprint_self_similarity.2.2 (fun _ => 0) " ?! " ""
      (by decide) (by decide)⟩

/-! The recency scorer. -/

/-- C6: with the default 30-day window, `RecencyScorer.score` returns 0.5
for a missing `posted_at`; 1 for a non-positive age; 0 for an age of at
least 30 days; otherwise the clamped concave decay
1 - sqrt(ageDays / 30) — so a posting one hour old scores above 0.9 and a
posting 25 days old scores below 0.3. -/
theorem C6_recency_decay (now posted : ℝ) :
    RecencyScorer.score 30 now none = 0.5 ∧
    ((now - posted) / 86400 ≤ 0 →
      RecencyScorer.score 30 now (some posted) = 1) ∧
    (30 ≤ (now - posted) / 86400 →
      RecencyScorer.score 30 now (some posted) = 0) ∧
    (0 < (now - posted) / 86400 → (now - posted) / 86400 < 30 →
      RecencyScorer.score 30 now (some posted)
        = max 0 (min 1 (1 - Real.sqrt ((now - posted) / 86400 / 30)))) ∧
    (now - posted = 3600 →
      0.9 < RecencyScorer.score 30 now (some posted)) ∧
    (now - posted = 86400 * 25 →
      RecencyScorer.score 30 now (some posted) < 0.3) := by
  have hgen : ∀ h1 : ¬ (now - posted) / 86400 ≤ 0,
      ∀ h2 : ¬ 30 ≤ (now - posted) / 86400,
      RecencyScorer.score 30 now (some posted)
        = max 0 (min 1 (1 - Real.sqrt ((now - posted) / 86400 / 30))) := by
    intro h1 h2
    show (if (now - posted) / 86400 ≤ 0 then (1.0 : ℝ)
        else if (30 : ℝ) ≤ (now - posted) / 86400 then 0.0
        else max 0.0 (min 1.0 (1.0 - Real.sqrt ((now - posted) / 86400 / 30))))
      = _
    rw [if_neg h1, if_neg h2]
    norm_num
  refine ⟨rfl, ?_, ?_, ?_, ?_, ?_⟩
  · intro h
    show (if (now - posted) / 86400 ≤ 0 then (1.0 : ℝ)
        else if (30 : ℝ) ≤ (now - posted) / 86400 then 0.0
        else max 0.0 (min 1.0 (1.0 - Real.sqrt ((now - posted) / 86400 / 30))))
      = _
    rw [if_pos h]
    norm_num
  · intro h
    show (if (now - posted) / 86400 ≤ 0 then (1.0 : ℝ)
        else if (30 : ℝ) ≤ (now - posted) / 86400 then 0.0
        else max 0.0 (min 1.0 (1.0 - Real.sqrt ((now - posted) / 86400 / 30))))
      = _
    rw [if_neg (by intro h0; linarith), if_pos h]
    norm_num
  · intro h1 h2
    exact hgen (by linarith) (by linarith)
  · intro hage
    have hval : RecencyScorer.score 30 now (some posted)
        = max 0 (min 1 (1 - Real.sqrt ((now - posted) / 86400 / 30))) := by
      refine hgen ?_ ?_ <;> rw [hage] <;> norm_num
    rw [hval, hage]
    have hs : Real.sqrt (3600 / 86400 / 30) < 1 / 10 := by
      rw [Real.sqrt_lt' (by norm_num : (0 : ℝ) < 1 / 10)]
      norm_num
    have hnn : (0 : ℝ) ≤ Real.sqrt (3600 / 86400 / 30) := Real.sqrt_nonneg _
    rw [min_eq_right (by linarith), max_eq_right (by linarith)]
    linarith
  · intro hage
    have hval : RecencyScorer.score 30 now (some posted)
        = max 0 (min 1 (1 - Real.sqrt ((now - posted) / 86400 / 30))) := by
      refine hgen ?_ ?_ <;> rw [hage] <;> norm_num
    rw [hval, hage]
    have hub : Real.sqrt (86400 * 25 / 86400 / 30) ≤ 1 := by
      rw [show (86400 : ℝ) * 25 / 86400 / 30 = 25 / 30 by norm_num]
      rw [Real.sqrt_le_left (by norm_num : (0 : ℝ) ≤ 1)]
      norm_num
    have hlb : (7 : ℝ) / 10 < Real.sqrt (86400 * 25 / 86400 / 30) := by
      rw [show (86400 : ℝ) * 25 / 86400 / 30 = 25 / 30 by norm_num]
      rw [Real.lt_sqrt (by norm_num : (0 : ℝ) ≤ 7 / 10)]
      norm_num
    rw [min_eq_right (by linarith), max_eq_right (by linarith)]
    linarith

/-! Score ranges. -/

lemma recency_range (max_age now : ℝ) (posted : Option ℝ) :
    0 ≤ RecencyScorer.score max_age now posted ∧
      RecencyScorer.score max_age now posted ≤ 1 := by
  cases posted with
  | none =>
    constructor <;> norm_num [RecencyScorer.score]
  | some t =>
    have hshow : RecencyScorer.score max_age now (some t)
        = (if (now - t) / 86400 ≤ 0 then (1.0 : ℝ)
          else if max_age ≤ (now - t) / 86400 then 0.0
          else max 0.0 (min 1.0
            (1.0 - Real.sqrt ((now - t) / 86400 / max_age)))) := rfl
    rw [hshow]
    split_ifs with h1 h2
    · norm_num
    · norm_num
    · constructor
      · exact le_trans (by norm_num) (le_max_left _ _)
      · exact max_le (by norm_num) (le_trans (min_le_left _ _) (by norm_num))

lemma vectorStep_fst_range (p : MatchingProfile) (prov : EmbProvider)
    (cache : Option (List ℝ)) (j : JobPosting)
    (hsim : ∀ a b : List ℝ, -1 ≤ prov.simCall a b ∧ prov.simCall a b ≤ 1) :
    0 ≤ (Scorer.vectorStep p prov cache j).1 ∧
      (Scorer.vectorStep p prov cache j).1 ≤ 1 := by
  unfold Scorer.vectorStep
  split_ifs with h
  · norm_num
  · rcases hres : Scorer.get_profile_embedding p prov cache with ⟨res, cache2, inv⟩
    cases res with
    | error e =>
      dsimp only
      norm_num
    | ok pe =>
      dsimp only
      by_cases hpe : pe = []
      · rw [if_pos hpe]
        norm_num
      · rw [if_neg hpe]
        cases hemb : prov.embedCall [j.get_searchable_text] with
        | error e => norm_num
        | ok l =>
          cases l with
          | nil => norm_num
          | cons je rest =>
            dsimp only
            obtain ⟨hs1, hs2⟩ := hsim pe je
            constructor <;> linarith

lemma keyword_cast_range (p : MatchingProfile) (j : JobPosting) :
    0 ≤ ((KeywordScorer.score p j).1 : ℝ) ∧
      ((KeywordScorer.score p j).1 : ℝ) ≤ 1 := by
  constructor
  · exact_mod_cast keyword_score_nonneg p j
  · exact_mod_cast keyword_score_le_one p j

/-- C3 counterexample: the claim fails for an arbitrary profile — with
`vector_weight = 4` (and the other weights 0) a non-excluded job scored by
the neutral provider gets `finalScore = 4 * 0.5 = 2 > 1`. -/
theorem C3_counterexample :
    1 < (Scorer.score
        { vector_weight := 4, keyword_weight := 0, recency_weight := 0 }
        (EmbProvider.noEmbedding 384) (fun _ => "") 0 none
        { company := "c", title := "t", source_job_id := "1",
          source_system := ATSType.greenhouse }).result.final_score := by
  have hks2 : (KeywordScorer.score
      { vector_weight := 4, keyword_weight := 0, recency_weight := 0 }
      { company := "c", title := "t", source_job_id := "1",
        source_system := ATSType.greenhouse }).2 = [] := rfl
  simp only [Scorer.score]
  rw [if_neg (fun hc => hc.2 hks2)]
  simp only [Scorer.vectorStep, EmbProvider.isNoEmbedding, if_pos]
  norm_num

/-- C3 (amended): for weights that are nonnegative and sum to at most 1, and
a provider whose similarity values lie in the documented range, all four
scores of `Scorer.score` lie in the unit interval; in the short-circuit
exclusion case all four are exactly 0. -/
theorem C3_scores_in_unit_interval (p : MatchingProfile) (j : JobPosting)
    (prov : EmbProvider) (fmt : ℝ → String) (now : ℝ)
    (cache : Option (List ℝ))
    (hv : 0 ≤ p.vector_weight) (hk : 0 ≤ p.keyword_weight)
    (hr : 0 ≤ p.recency_weight)
    (hsum : p.vector_weight + p.keyword_weight + p.recency_weight ≤ 1)
    (hsim : ∀ a b : List ℝ, -1 ≤ prov.simCall a b ∧ prov.simCall a b ≤ 1) :
    (0 ≤ (Scorer.score p prov fmt now cache j).result.final_score ∧
      (Scorer.score p prov fmt now cache j).result.final_score ≤ 1) ∧
    (0 ≤ (Scorer.score p prov fmt now cache j).result.vector_score ∧
      (Scorer.score p prov fmt now cache j).result.vector_score ≤ 1) ∧
    (0 ≤ (Scorer.score p prov fmt now cache j).result.keyword_score ∧
      (Scorer.score p prov fmt now cache j).result.keyword_score ≤ 1) ∧
    (0 ≤ (Scorer.score p prov fmt now cache j).result.recency_score ∧
      (Scorer.score p prov fmt now cache j).result.recency_score ≤ 1) ∧
    ((KeywordScorer.score p j).1 = 0 ∧ (KeywordScorer.score p j).2 ≠ [] →
      (Scorer.score p prov fmt now cache j).result.final_score = 0 ∧
      (Scorer.score p prov fmt now cache j).result.vector_score = 0 ∧
      (Scorer.score p prov fmt now cache j).result.keyword_score = 0 ∧
      (Scorer.score p prov fmt now cache j).result.recency_score = 0) := by
  by_cases hex : (KeywordScorer.score p j).1 = 0 ∧ (KeywordScorer.score p j).2 ≠ []
  · simp only [Scorer.score, if_pos hex]
    norm_num
  · simp only [Scorer.score, if_neg hex]
    obtain ⟨hv0, hv1⟩ := vectorStep_fst_range p prov cache j hsim
    obtain ⟨hr0, hr1⟩ := recency_range 30 now j.posted_at
    obtain ⟨hk0, hk1⟩ := keyword_cast_range p j
    refine ⟨⟨?_, ?_⟩, ⟨hv0, hv1⟩, ⟨hk0, hk1⟩, ⟨hr0, hr1⟩, fun h => (hex h).elim⟩
    · have m1 := mul_nonneg hv hv0
      have m2 := mul_nonneg hk hk0
      have m3 := mul_nonneg hr hr0
      linarith
    · have m1 := mul_le_of_le_one_right hv hv1
      have m2 := mul_le_of_le_one_right hk hk1
      have m3 := mul_le_of_le_one_right hr hr1
      linarith

/-- C3 witness: the amended claim at the default weights, the neutral
provider and a concrete job. -/
theorem C3_scores_in_unit_interval_witness :
    (0 : ℝ) ≤ 0.55 ∧ (0 : ℝ) ≤ 0.30 ∧ (0 : ℝ) ≤ 0.15 ∧
    (0.55 : ℝ) + 0.30 + 0.15 ≤ 1 ∧
    (0 ≤ (Scorer.score {} (EmbProvider.noEmbedding 384) (fun _ => "") 0 none
        { company := "c", title := "t", source_job_id := "1",
          source_system := ATSType.greenhouse }).result.final_score ∧
      (Scorer.score {} (EmbProvider.noEmbedding 384) (fun _ => "") 0 none
        { company := "c", title := "t", source_job_id := "1",
          source_system := ATSType.greenhouse }).result.final_score ≤ 1) := by
  refine ⟨by norm_num, by norm_num, by norm_num, by norm_num, ?_⟩
  exact (C3_scores_in_unit_interval {}
    { company := "c", title := "t", source_job_id := "1",
      source_system := ATSType.greenhouse }
    (EmbProvider.noEmbedding 384) (fun _ => "") 0 none
    (by norm_num) (by norm_num) (by norm_num) (by norm_num)
    (fun a b => by constructor <;> norm_num [EmbProvider.simCall])).1

/-! The must-not short circuit. -/

/-- C1 counterexample: for the profile with must-not phrase "senior" and a
job whose text contains it, the reason list is not
`["Excluded: contains 'senior'"]` as the claim states: the source formats
`pattern.pattern`, so the message holds the compiled pattern
`\bsenior\b` instead of the bare phrase. -/
theorem C1_counterexample :
    wordSearch "senior"
      (JobPosting.get_searchable_text
        { company := "TestCo", title := "Senior Software Engineer",
          source_job_id := "1", source_system := ATSType.greenhouse })
      = true ∧
    (KeywordScorer.score { must_not_keywords := ["senior"] }
        { company := "TestCo", title := "Senior Software Engineer",
          source_job_id := "1", source_system := ATSType.greenhouse }).2
      = ["Excluded: contains " ++ sq ++ "\\bsenior\\b" ++ sq] ∧
    (KeywordScorer.score { must_not_keywords := ["senior"] }
        { company := "TestCo", title := "Senior Software Engineer",
          source_job_id := "1", source_system := ATSType.greenhouse }).2
      ≠ ["Excluded: contains " ++ sq ++ "senior" ++ sq] := by
  refine ⟨by decide, by decide, by decide⟩

/-- C1 (amended): when the first matching must-not phrase is `kw`,
`KeywordScorer.score` returns exactly
`(0, ["Excluded: contains '<compiled pattern of kw>'"])`, and `Scorer.score`
short-circuits: the result has final, keyword, vector and recency scores all
0 and only the exclusion reason, the embedding cache is untouched, no embed
call is made, and the outcome is the same for every provider, clock value
and cache — no recency or embedding computation contributes. -/
theorem C1_must_not_short_circuit (p : MatchingProfile) (j : JobPosting)
    (kw : String)
    (hfind : p.must_not_keywords.find?
      (fun k => wordSearch k j.get_searchable_text) = some kw) :
    KeywordScorer.score p j
      = (0, ["Excluded: contains " ++ sq ++ patStr kw ++ sq]) ∧
    ∀ (prov : EmbProvider) (fmt : ℝ → String) (now : ℝ)
      (cache : Option (List ℝ)),
      Scorer.score p prov fmt now cache j =
        { result :=
            { job := j, final_score := 0, vector_score := 0,
              keyword_score := 0, recency_score := 0,
              match_reasons :=
                ["Excluded: contains " ++ sq ++ patStr kw ++ sq] },
          cache := cache, profileEmbedCalls := 0 } := by
  have hks : KeywordScorer.score p j
      = (0, ["Excluded: contains " ++ sq ++ patStr kw ++ sq]) := by
    unfold KeywordScorer.score
    rw [hfind]
  refine ⟨hks, ?_⟩
  intro prov fmt now cache
  unfold Scorer.score
  rw [hks]
  simp
  norm_num

/-- C1 witness: the amended claim instantiated at the "senior" profile and
job of the counterexample, with the neutral provider. -/
theorem C1_must_not_short_circuit_witness :
    KeywordScorer.score { must_not_keywords := ["senior"] }
        { company := "TestCo", title := "Senior Software Engineer",
          source_job_id := "1", source_system := ATSType.greenhouse }
      = (0, ["Excluded: contains " ++ sq ++ patStr "senior" ++ sq]) ∧
    Scorer.score { must_not_keywords := ["senior"] }
        (EmbProvider.noEmbedding 384) (fun _ => "") 0 none
        { company := "TestCo", title := "Senior Software Engineer",
          source_job_id := "1", source_system := ATSType.greenhouse } =
      { result :=
          { job :=
              { company := "TestCo",
                title := "Senior Software Engineer", source_job_id := "1",
                source_system := ATSType.greenhouse },
            final_score := 0, vector_score := 0, keyword_score := 0,
            recency_score := 0,
            match_reasons :=
              ["Excluded: contains " ++ sq ++ patStr "senior" ++ sq] },
        cache := none, profileEmbedCalls := 0 } := by
  have h := C1_must_not_short_circuit { must_not_keywords := ["senior"] }
    { company := "TestCo", title := "Senior Software Engineer",
      source_job_id := "1", source_system := ATSType.greenhouse }
    "senior" (by decide)
  exact ⟨h.1, h.2 (EmbProvider.noEmbedding 384) (fun _ => "") 0 none⟩

/-! Equations for the profile-embedding step and the vector step, used to
analyse degradation and caching. -/

lemma gpe_cached (p : MatchingProfile) (prov : EmbProvider) (v : List ℝ) :
    Scorer.get_profile_embedding p prov (some v)
      = (Except.ok v, some v, false) := rfl

lemma gpe_empty_text (p : MatchingProfile) (prov : EmbProvider)
    (hpt : Scorer.profile_text p = "") :
    Scorer.get_profile_embedding p prov none
      = (Except.ok [], some [], false) := by
  unfold Scorer.get_profile_embedding
  rw [if_pos hpt]

lemma gpe_embed_error (p : MatchingProfile) (prov : EmbProvider) (e : Unit)
    (hpt : Scorer.profile_text p ≠ "")
    (he : prov.embedCall [Scorer.profile_text p] = Except.error e) :
    Scorer.get_profile_embedding p prov none = (Except.error e, none, true) := by
  unfold Scorer.get_profile_embedding
  rw [if_neg hpt, he]

lemma gpe_embed_nil (p : MatchingProfile) (prov : EmbProvider)
    (hpt : Scorer.profile_text p ≠ "")
    (he : prov.embedCall [Scorer.profile_text p] = Except.ok []) :
    Scorer.get_profile_embedding p prov none
      = (Except.ok [], some [], true) := by
  unfold Scorer.get_profile_embedding
  rw [if_neg hpt, he]

lemma gpe_embed_cons (p : MatchingProfile) (prov : EmbProvider)
    (v : List ℝ) (rest : List (List ℝ))
    (hpt : Scorer.profile_text p ≠ "")
    (he : prov.embedCall [Scorer.profile_text p] = Except.ok (v :: rest)) :
    Scorer.get_profile_embedding p prov none
      = (Except.ok v, some v, true) := by
  unfold Scorer.get_profile_embedding
  rw [if_neg hpt, he]

lemma vectorStep_noEmb (p : MatchingProfile) (d : ℕ)
    (cache : Option (List ℝ)) (j : JobPosting) :
    Scorer.vectorStep p (EmbProvider.noEmbedding d) cache j
      = (0.5, cache, 0) := rfl

lemma vectorStep_gpe_error (p : MatchingProfile) (prov : EmbProvider)
    (cache : Option (List ℝ)) (j : JobPosting) (e : Unit)
    (c2 : Option (List ℝ)) (inv : Bool)
    (hno : prov.isNoEmbedding = false)
    (hres : Scorer.get_profile_embedding p prov cache
      = (Except.error e, c2, inv)) :
    Scorer.vectorStep p prov cache j
      = (0.5, c2, if inv then 1 else 0) := by
  unfold Scorer.vectorStep
  rw [if_neg (by simp [hno]), hres]

lemma vectorStep_gpe_nil (p : MatchingProfile) (prov : EmbProvider)
    (cache : Option (List ℝ)) (j : JobPosting)
    (c2 : Option (List ℝ)) (inv : Bool)
    (hno : prov.isNoEmbedding = false)
    (hres : Scorer.get_profile_embedding p prov cache
      = (Except.ok [], c2, inv)) :
    Scorer.vectorStep p prov cache j
      = (0.5, c2, if inv then 1 else 0) := by
  unfold Scorer.vectorStep
  rw [if_neg (by simp [hno]), hres]
  dsimp only
  rw [if_pos rfl]

lemma vectorStep_job_error (p : MatchingProfile) (prov : EmbProvider)
    (cache : Option (List ℝ)) (j : JobPosting) (pe : List ℝ)
    (c2 : Option (List ℝ)) (inv : Bool) (e : Unit)
    (hno : prov.isNoEmbedding = false)
    (hres : Scorer.get_profile_embedding p prov cache
      = (Except.ok pe, c2, inv))
    (hpe : pe ≠ [])
    (hemb : prov.embedCall [j.get_searchable_text] = Except.error e) :
    Scorer.vectorStep p prov cache j
      = (0.5, c2, if inv then 1 else 0) := by
  unfold Scorer.vectorStep
  rw [if_neg (by simp [hno]), hres]
  dsimp only
  rw [if_neg hpe, hemb]

lemma vectorStep_job_nil (p : MatchingProfile) (prov : EmbProvider)
    (cache : Option (List ℝ)) (j : JobPosting) (pe : List ℝ)
    (c2 : Option (List ℝ)) (inv : Bool)
    (hno : prov.isNoEmbedding = false)
    (hres : Scorer.get_profile_embedding p prov cache
      = (Except.ok pe, c2, inv))
    (hpe : pe ≠ [])
    (hemb : prov.embedCall [j.get_searchable_text] = Except.ok []) :
    Scorer.vectorStep p prov cache j
      = (0.5, c2, if inv then 1 else 0) := by
  unfold Scorer.vectorStep
  rw [if_neg (by simp [hno]), hres]
  dsimp only
  rw [if_neg hpe, hemb]

lemma vectorStep_job_cons (p : MatchingProfile) (prov : EmbProvider)
    (cache : Option (List ℝ)) (j : JobPosting) (pe : List ℝ)
    (c2 : Option (List ℝ)) (inv : Bool) (je : List ℝ) (rest : List (List ℝ))
    (hno : prov.isNoEmbedding = false)
    (hres : Scorer.get_profile_embedding p prov cache
      = (Except.ok pe, c2, inv))
    (hpe : pe ≠ [])
    (hemb : prov.embedCall [j.get_searchable_text]
      = Except.ok (je :: rest)) :
    Scorer.vectorStep p prov cache j
      = ((prov.simCall pe je + 1) / 2, c2, if inv then 1 else 0) := by
  unfold Scorer.vectorStep
  rw [if_neg (by simp [hno]), hres]
  dsimp only
  rw [if_neg hpe, hemb]

lemma vectorStep_half (p : MatchingProfile) (prov : EmbProvider)
    (cache : Option (List ℝ)) (j : JobPosting)
    (hcase : (∃ d, prov = EmbProvider.noEmbedding d) ∨
      (cache = none ∧
        prov.embedCall [Scorer.profile_text p] = Except.error ()) ∨
      cache = some [] ∨
      (cache = none ∧ Scorer.profile_text p = "") ∨
      (cache = none ∧
        prov.embedCall [Scorer.profile_text p] = Except.ok []) ∨
      (cache = none ∧ ∃ rest,
        prov.embedCall [Scorer.profile_text p] = Except.ok ([] :: rest)) ∨
      prov.embedCall [j.get_searchable_text] = Except.error ()) :
    (Scorer.vectorStep p prov cache j).1 = 0.5 := by
  by_cases hno : prov.isNoEmbedding = true
  · cases prov with
    | noEmbedding d => rw [vectorStep_noEmb]
    | backend e s => simp [EmbProvider.isNoEmbedding] at hno
  · have hno2 : prov.isNoEmbedding = false := by
      cases hb : prov.isNoEmbedding
      · rfl
      · exact absurd hb hno
    rcases hcase with ⟨d, hd⟩ | ⟨hc, he⟩ | hc | ⟨hc, hpt⟩ | ⟨hc, he⟩ |
      ⟨hc, rest, he⟩ | he
    · rw [hd] at hno2
      simp [EmbProvider.isNoEmbedding] at hno2
    · subst hc
      by_cases hpt : Scorer.profile_text p = ""
      · rw [vectorStep_gpe_nil p prov none j (some []) false hno2
          (gpe_empty_text p prov hpt)]
      · rw [vectorStep_gpe_error p prov none j () none true hno2
          (gpe_embed_error p prov () hpt he)]
    · subst hc
      rw [vectorStep_gpe_nil p prov (some []) j (some []) false hno2
        (gpe_cached p prov [])]
    · subst hc
      rw [vectorStep_gpe_nil p prov none j (some []) false hno2
        (gpe_empty_text p prov hpt)]
    · subst hc
      by_cases hpt : Scorer.profile_text p = ""
      · rw [vectorStep_gpe_nil p prov none j (some []) false hno2
          (gpe_empty_text p prov hpt)]
      · rw [vectorStep_gpe_nil p prov none j (some []) true hno2
          (gpe_embed_nil p prov hpt he)]
    · subst hc
      by_cases hpt : Scorer.profile_text p = ""
      · rw [vectorStep_gpe_nil p prov none j (some []) false hno2
          (gpe_empty_text p prov hpt)]
      · rw [vectorStep_gpe_nil p prov none j (some []) true hno2
          (gpe_embed_cons p prov [] rest hpt he)]
    · cases cache with
      | some v =>
        by_cases hv : v = []
        · subst hv
          rw [vectorStep_gpe_nil p prov (some []) j (some []) false hno2
            (gpe_cached p prov [])]
        · rw [vectorStep_job_error p prov (some v) j v (some v) false ()
            hno2 (gpe_cached p prov v) hv he]
      | none =>
        by_cases hpt : Scorer.profile_text p = ""
        · rw [vectorStep_gpe_nil p prov none j (some []) false hno2
            (gpe_empty_text p prov hpt)]
        · cases hemb : prov.embedCall [Scorer.profile_text p] with
          | error e =>
            rw [vectorStep_gpe_error p prov none j e none true hno2
              (by
                unfold Scorer.get_profile_embedding
                rw [if_neg hpt, hemb])]
          | ok l =>
            cases l with
            | nil =>
              rw [vectorStep_gpe_nil p prov none j (some []) true hno2
                (gpe_embed_nil p prov hpt hemb)]
            | cons v rest2 =>
              by_cases hv : v = []
              · subst hv
                rw [vectorStep_gpe_nil p prov none j (some []) true hno2
                  (gpe_embed_cons p prov [] rest2 hpt hemb)]
              · rw [vectorStep_job_error p prov none j v (some v) true ()
                  hno2 (gpe_embed_cons p prov v rest2 hpt hemb) hv he]

/-- C5: for a job that is not excluded, the vector score is exactly 0.5
whenever the provider is the neutral `NoEmbeddingProvider`, or the
provider's embed call raises (on the profile text or the job text), or the
profile embedding is empty (empty profile text, empty embed result, or an
empty cached embedding); in every such case the job is still scored and the
final score is computed with vectorScore = 0.5. -/
theorem C5_vector_degrades_to_neutral (p : MatchingProfile)
    (prov : EmbProvider) (fmt : ℝ → String) (now : ℝ)
    (cache : Option (List ℝ)) (j : JobPosting)
    (hnx : ¬ ((KeywordScorer.score p j).1 = 0 ∧
      (KeywordScorer.score p j).2 ≠ []))
    (hcase : (∃ d, prov = EmbProvider.noEmbedding d) ∨
      (cache = none ∧
        prov.embedCall [Scorer.profile_text p] = Except.error ()) ∨
      cache = some [] ∨
      (cache = none ∧ Scorer.profile_text p = "") ∨
      (cache = none ∧
        prov.embedCall [Scorer.profile_text p] = Except.ok []) ∨
      (cache = none ∧ ∃ rest,
        prov.embedCall [Scorer.profile_text p] = Except.ok ([] :: rest)) ∨
      prov.embedCall [j.get_searchable_text] = Except.error ()) :
    (Scorer.score p prov fmt now cache j).result.vector_score = 0.5 ∧
    (Scorer.score p prov fmt now cache j).result.final_score
      = p.vector_weight * 0.5
        + p.keyword_weight * ((KeywordScorer.score p j).1 : ℝ)
        + p.recency_weight * RecencyScorer.score 30 now j.posted_at := by
  have hv := vectorStep_half p prov cache j hcase
  simp only [Scorer.score, if_neg hnx]
  rw [hv]
  exact ⟨rfl, rfl⟩

/-- C5 witness: the neutral provider with a non-excluded job. -/
theorem C5_vector_degrades_to_neutral_witness :
    (¬ ((KeywordScorer.score {}
        { company := "c", title := "t", source_job_id := "1",
          source_system := ATSType.greenhouse }).1 = 0 ∧
      (KeywordScorer.score {}
        { company := "c", title := "t", source_job_id := "1",
          source_system := ATSType.greenhouse }).2 ≠ [])) ∧
    (Scorer.score {} (EmbProvider.noEmbedding 384) (fun _ => "") 0 none
      { company := "c", title := "t", source_job_id := "1",
        source_system := ATSType.greenhouse }).result.vector_score = 0.5 := by
  have hnx : ¬ ((KeywordScorer.score {}
      { company := "c", title := "t", source_job_id := "1",
        source_system := ATSType.greenhouse }).1 = 0 ∧
    (KeywordScorer.score {}
      { company := "c", title := "t", source_job_id := "1",
        source_system := ATSType.greenhouse }).2 ≠ []) :=
    fun h => h.2 rfl
  exact ⟨hnx,
    (C5_vector_degrades_to_neutral {} (EmbProvider.noEmbedding 384)
      (fun _ => "") 0 none
      { company := "c", title := "t", source_job_id := "1",
        source_system := ATSType.greenhouse }
      hnx (Or.inl ⟨384, rfl⟩)).1⟩

lemma score_cached (p : MatchingProfile) (prov : EmbProvider)
    (fmt : ℝ → String) (now : ℝ) (v : List ℝ) (j : JobPosting) :
    (Scorer.score p prov fmt now (some v) j).cache = some v ∧
    (Scorer.score p prov fmt now (some v) j).profileEmbedCalls = 0 := by
  by_cases hex : (KeywordScorer.score p j).1 = 0 ∧ (KeywordScorer.score p j).2 ≠ []
  · simp only [Scorer.score, if_pos hex]
    exact ⟨by trivial, by trivial⟩
  · simp only [Scorer.score, if_neg hex]
    by_cases hno : prov.isNoEmbedding = true
    · cases prov with
      | noEmbedding d =>
        rw [vectorStep_noEmb]
        exact ⟨rfl, rfl⟩
      | backend e s => simp [EmbProvider.isNoEmbedding] at hno
    · have hno2 : prov.isNoEmbedding = false := by
        cases hb : prov.isNoEmbedding
        · rfl
        · exact absurd hb hno
      by_cases hv : v = []
      · subst hv
        rw [vectorStep_gpe_nil p prov (some []) j (some []) false hno2
          (gpe_cached p prov [])]
        exact ⟨rfl, rfl⟩
      · cases hemb : prov.embedCall [j.get_searchable_text] with
        | error e =>
          rw [vectorStep_job_error p prov (some v) j v (some v) false e
            hno2 (gpe_cached p prov v) hv hemb]
          exact ⟨rfl, rfl⟩
        | ok l =>
          cases l with
          | nil =>
            rw [vectorStep_job_nil p prov (some v) j v (some v) false
              hno2 (gpe_cached p prov v) hv hemb]
            exact ⟨rfl, rfl⟩
          | cons je rest =>
            rw [vectorStep_job_cons p prov (some v) j v (some v) false je
              rest hno2 (gpe_cached p prov v) hv hemb]
            exact ⟨rfl, rfl⟩

lemma scoreList_cached (p : MatchingProfile) (prov : EmbProvider)
    (fmt : ℝ → String) (now : ℝ) (v : List ℝ) (jobs : List JobPosting) :
    (Scorer.scoreList p prov fmt now (some v) jobs).2.1 = some v ∧
    (Scorer.scoreList p prov fmt now (some v) jobs).2.2 = 0 := by
  induction jobs with
  | nil => exact ⟨rfl, rfl⟩
  | cons j js ih =>
    obtain ⟨hc, hn⟩ := score_cached p prov fmt now v j
    simp only [Scorer.scoreList, hc, hn]
    simp [ih.1, ih.2]

lemma score_uncached_success (p : MatchingProfile) (prov : EmbProvider)
    (fmt : ℝ → String) (now : ℝ) (j : JobPosting) (r : List (List ℝ))
    (hok : prov.embedCall [Scorer.profile_text p] = Except.ok r) :
    ((Scorer.score p prov fmt now none j).profileEmbedCalls = 0 ∧
      (Scorer.score p prov fmt now none j).cache = none) ∨
    ((Scorer.score p prov fmt now none j).profileEmbedCalls ≤ 1 ∧
      ∃ w, (Scorer.score p prov fmt now none j).cache = some w) := by
  by_cases hex : (KeywordScorer.score p j).1 = 0 ∧ (KeywordScorer.score p j).2 ≠ []
  · left
    simp only [Scorer.score, if_pos hex]
    exact ⟨by trivial, by trivial⟩
  · by_cases hno : prov.isNoEmbedding = true
    · left
      cases prov with
      | noEmbedding d =>
        simp only [Scorer.score, if_neg hex]
        rw [vectorStep_noEmb]
        exact ⟨rfl, rfl⟩
      | backend e s => simp [EmbProvider.isNoEmbedding] at hno
    · have hno2 : prov.isNoEmbedding = false := by
        cases hb : prov.isNoEmbedding
        · rfl
        · exact absurd hb hno
      right
      simp only [Scorer.score, if_neg hex]
      by_cases hpt : Scorer.profile_text p = ""
      · rw [vectorStep_gpe_nil p prov none j (some []) false hno2
          (gpe_empty_text p prov hpt)]
        exact ⟨by norm_num, [], rfl⟩
      · cases r with
        | nil =>
          rw [vectorStep_gpe_nil p prov none j (some []) true hno2
            (gpe_embed_nil p prov hpt hok)]
          exact ⟨by norm_num, [], rfl⟩
        | cons v rest =>
          by_cases hv : v = []
          · subst hv
            rw [vectorStep_gpe_nil p prov none j (some []) true hno2
              (gpe_embed_cons p prov [] rest hpt hok)]
            exact ⟨by norm_num, [], rfl⟩
          · cases hemb : prov.embedCall [j.get_searchable_text] with
            | error e =>
              rw [vectorStep_job_error p prov none j v (some v) true e
                hno2 (gpe_embed_cons p prov v rest hpt hok) hv hemb]
              exact ⟨by norm_num, v, rfl⟩
            | ok l =>
              cases l with
              | nil =>
                rw [vectorStep_job_nil p prov none j v (some v) true
                  hno2 (gpe_embed_cons p prov v rest hpt hok) hv hemb]
                exact ⟨by norm_num, v, rfl⟩
              | cons je rest2 =>
                rw [vectorStep_job_cons p prov none j v (some v) true je
                  rest2 hno2 (gpe_embed_cons p prov v rest hpt hok) hv hemb]
                exact ⟨by norm_num, v, rfl⟩

/-- The profile used by the C8 counterexample: one desired role, so the
profile text is non-empty. -/
noncomputable def pRoleX : MatchingProfile := { desired_roles := ["x"] }

/-- A backend provider whose embed call always raises. -/
noncomputable def provFail : EmbProvider :=
  EmbProvider.backend (fun _ => Except.error ()) (fun _ _ => 0)

/-- A plain job posting whose keyword score carries no reasons. -/
def jPlain : JobPosting :=
  { company := "c", title := "t", source_job_id := "1",
    source_system := ATSType.greenhouse }

/-- C8 counterexample: a backend whose embed always raises leaves the cache
unset, so with two jobs the profile text is embedded twice — the claim's
"invoked at most one time" fails. -/
theorem C8_counterexample :
    ¬ ((Scorer.scoreList pRoleX provFail (fun _ => "") 0 none
        [jPlain, jPlain]).2.2 ≤ 1) := by
  have hnx : ¬ ((KeywordScorer.score pRoleX jPlain).1 = 0 ∧
      (KeywordScorer.score pRoleX jPlain).2 ≠ []) :=
    fun h => h.2 (by decide)
  have h1 : (Scorer.score pRoleX provFail (fun _ => "") 0 none
        jPlain).profileEmbedCalls = 1 ∧
      (Scorer.score pRoleX provFail (fun _ => "") 0 none
        jPlain).cache = none := by
    simp only [Scorer.score, if_neg hnx]
    rw [vectorStep_gpe_error pRoleX provFail none jPlain () none true rfl
      (gpe_embed_error pRoleX provFail () (by decide) rfl)]
    exact ⟨by trivial, by trivial⟩
  simp only [Scorer.scoreList, h1.1, h1.2]
  norm_num

/-- C8 (amended): the profile embedding is computed at most once per scorer
lifetime when the provider's embed call on the profile text succeeds: every
call that starts with a cached value reuses it unchanged and makes no embed
call, and across any job sequence started with an empty cache the profile
text is embedded at most once.  (When the embed call raises, the source
leaves the cache unset and retries on later calls — the counterexample.) -/
theorem C8_profile_embedding_cached_once (p : MatchingProfile)
    (prov : EmbProvider) (fmt : ℝ → String) (now : ℝ) :
    (∀ (v : List ℝ) (j : JobPosting),
      (Scorer.score p prov fmt now (some v) j).cache = some v ∧
      (Scorer.score p prov fmt now (some v) j).profileEmbedCalls = 0) ∧
    (∀ (jobs : List JobPosting) (r : List (List ℝ)),
      prov.embedCall [Scorer.profile_text p] = Except.ok r →
      (Scorer.scoreList p prov fmt now none jobs).2.2 ≤ 1) := by
  refine ⟨fun v j => score_cached p prov fmt now v j, ?_⟩
  intro jobs r hok
  induction jobs with
  | nil => norm_num [Scorer.scoreList]
  | cons j js ih =>
    rcases score_uncached_success p prov fmt now j r hok with ⟨hn, hc⟩ | ⟨hn, w, hc⟩
    · simp only [Scorer.scoreList, hn, hc]
      simpa using ih
    · simp only [Scorer.scoreList, hc]
      have h0 := (scoreList_cached p prov fmt now w js).2
      rw [h0]
      simpa using hn

/-- C8 witness: the amended claim at the neutral provider (whose embed call
always succeeds), one cached call and a two-job run. -/
theorem C8_profile_embedding_cached_once_witness :
    (Scorer.score {} (EmbProvider.noEmbedding 2) (fun _ => "") 0
      (some [1]) jPlain).cache = some [1] ∧
    (EmbProvider.noEmbedding 2).embedCall [Scorer.profile_text {}]
      = Except.ok [List.replicate 2 0] ∧
    (Scorer.scoreList {} (EmbProvider.noEmbedding 2) (fun _ => "") 0 none
      [jPlain, jPlain]).2.2 ≤ 1 := by
  refine ⟨((C8_profile_embedding_cached_once {} (EmbProvider.noEmbedding 2)
      (fun _ => "") 0).1 [1] _).1, rfl, ?_⟩
  exact (C8_profile_embedding_cached_once {} (EmbProvider.noEmbedding 2)
    (fun _ => "") 0).2 _ [List.replicate 2 0] rfl

/-! Deduplicator facts. -/

/-- Two postings agree on the exact-key triple. -/
def sameTriple (j1 j2 : JobPosting) : Prop :=
  j1.company = j2.company ∧ j1.source_system = j2.source_system ∧
    j1.source_job_id = j2.source_job_id

lemma exact_key_congr {j1 j2 : JobPosting} (h : sameTriple j1 j2) :
    Deduplicator.exact_key j1 = Deduplicator.exact_key j2 := by
  obtain ⟨h1, h2, h3⟩ := h
  unfold Deduplicator.exact_key
  rw [h1, h2, h3]

lemma is_dup_false_state (wordHash : String → ℕ) (sha : String → String)
    (d d' : Deduplicator) (j : JobPosting)
    (h : d.is_duplicate wordHash sha j = (false, d')) :
    d'.similarity_threshold = d.similarity_threshold ∧
    d'.job_exists_fn = d.job_exists_fn ∧
    d'.seen_ids = d.seen_ids ++ [Deduplicator.exact_key j] ∧
    d'.seen_hashes = assocInsert (Deduplicator.fuzzy_key j)
      (Deduplicator.content_hash wordHash j) d.seen_hashes := by
  simp only [Deduplicator.is_duplicate] at h
  split_ifs at h with h1 h2 h3
  · simp at h
  · simp at h
  · simp at h
  · rw [Prod.mk.injEq] at h
    obtain ⟨-, h⟩ := h
    subst h
    exact ⟨rfl, rfl, rfl, rfl⟩

lemma is_dup_true_of_mem (wordHash : String → ℕ) (sha : String → String)
    (d : Deduplicator) (j : JobPosting)
    (h : Deduplicator.exact_key j ∈ d.seen_ids) :
    d.is_duplicate wordHash sha j = (true, d) := by
  unfold Deduplicator.is_duplicate
  rw [if_pos h]

lemma is_dup_seen_mono (wordHash : String → ℕ) (sha : String → String)
    (d : Deduplicator) (j : JobPosting) (s : String)
    (h : s ∈ d.seen_ids) :
    s ∈ (d.is_duplicate wordHash sha j).2.seen_ids := by
  simp only [Deduplicator.is_duplicate]
  split_ifs with h1 h2 h3
  · exact h
  · exact h
  · exact h
  · exact List.mem_append_left _ h

lemma dedupe_seen_mono (wordHash : String → ℕ) (sha : String → String)
    (jobs : List JobPosting) :
    ∀ (d : Deduplicator) (s : String), s ∈ d.seen_ids →
      s ∈ (Deduplicator.dedupe wordHash sha d jobs).2.seen_ids := by
  induction jobs with
  | nil => exact fun d s h => h
  | cons j js ih =>
    intro d s h
    exact ih _ s (is_dup_seen_mono wordHash sha d j s h)

lemma dedupe_length_le (wordHash : String → ℕ) (sha : String → String)
    (jobs : List JobPosting) :
    ∀ d : Deduplicator,
      (Deduplicator.dedupe wordHash sha d jobs).1.length ≤ jobs.length := by
  induction jobs with
  | nil => exact fun d => Nat.le_refl 0
  | cons j js ih =>
    intro d
    simp only [Deduplicator.dedupe]
    split
    · exact Nat.le_succ_of_le (ih _)
    · simpa using ih _

lemma dedupe_append (wordHash : String → ℕ) (sha : String → String)
    (l1 l2 : List JobPosting) :
    ∀ d : Deduplicator,
      (Deduplicator.dedupe wordHash sha d (l1 ++ l2)).1
        = (Deduplicator.dedupe wordHash sha d l1).1
          ++ (Deduplicator.dedupe wordHash sha
              (Deduplicator.dedupe wordHash sha d l1).2 l2).1 := by
  induction l1 with
  | nil => exact fun d => rfl
  | cons j js ih =>
    intro d
    simp only [List.cons_append, Deduplicator.dedupe]
    split
    · exact ih _
    · simp [ih _]

lemma dedupe_all_kept_mem (wordHash : String → ℕ) (sha : String → String)
    (jobs : List JobPosting) :
    ∀ (d : Deduplicator),
      (Deduplicator.dedupe wordHash sha d jobs).1 = jobs →
      ∀ j ∈ jobs, Deduplicator.exact_key j
        ∈ (Deduplicator.dedupe wordHash sha d jobs).2.seen_ids := by
  induction jobs with
  | nil => intro d _ j hj; simp at hj
  | cons x xs ih =>
    intro d hkeep j hj
    cases hd : (d.is_duplicate wordHash sha x) with
    | mk verdict d2 =>
      cases verdict with
      | true =>
        exfalso
        have hlen := dedupe_length_le wordHash sha xs d2
        have : (Deduplicator.dedupe wordHash sha d (x :: xs)).1
            = (Deduplicator.dedupe wordHash sha d2 xs).1 := by
          simp [Deduplicator.dedupe, hd]
        rw [hkeep] at this
        have := congrArg List.length this
        simp at this
        omega
      | false =>
        have hstep : (Deduplicator.dedupe wordHash sha d (x :: xs)).1
            = x :: (Deduplicator.dedupe wordHash sha d2 xs).1 := by
          simp [Deduplicator.dedupe, hd]
        have hstep2 : (Deduplicator.dedupe wordHash sha d (x :: xs)).2
            = (Deduplicator.dedupe wordHash sha d2 xs).2 := by
          simp [Deduplicator.dedupe, hd]
        rw [hkeep] at hstep
        have htail : (Deduplicator.dedupe wordHash sha d2 xs).1 = xs := by
          injection hstep.symm
        have hx : Deduplicator.exact_key x ∈ d2.seen_ids := by
          obtain ⟨-, -, hids, -⟩ :=
            is_dup_false_state wordHash sha d d2 x hd
          rw [hids]
          exact List.mem_append_right _ (List.mem_singleton_self _)
        rw [hstep2]
        rcases List.mem_cons.mp hj with hj1 | hj2
        · subst hj1
          exact dedupe_seen_mono wordHash sha xs d2 _ hx
        · exact ih d2 htail j hj2

/-- C4: for two postings with the same (company, sourceSystem, sourceJobId),
a non-duplicate verdict on the first makes the immediately following
`isDuplicate` call on the second return true; consequently a list of five
postings that dedupe to themselves followed by an exact copy of the first
dedupes to exactly the five, in input order. -/
theorem C4_exact_duplicate (wordHash : String → ℕ) (sha : String → String)
    (d d' : Deduplicator) (j1 j2 : JobPosting)
    (ht : sameTriple j1 j2)
    (h1 : d.is_duplicate wordHash sha j1 = (false, d')) :
    (d'.is_duplicate wordHash sha j2).1 = true ∧
    ∀ (d0 : Deduplicator) (a b c e f a2 : JobPosting),
      sameTriple a a2 →
      (Deduplicator.dedupe wordHash sha d0 [a, b, c, e, f]).1
        = [a, b, c, e, f] →
      (Deduplicator.dedupe wordHash sha d0 [a, b, c, e, f, a2]).1
        = [a, b, c, e, f] := by
  constructor
  · obtain ⟨-, -, hids, -⟩ := is_dup_false_state wordHash sha d d' j1 h1
    have hmem : Deduplicator.exact_key j2 ∈ d'.seen_ids := by
      rw [hids, ← exact_key_congr ht]
      exact List.mem_append_right _ (List.mem_singleton_self _)
    rw [is_dup_true_of_mem wordHash sha d' j2 hmem]
  · intro d0 a b c e f a2 ht2 hkeep
    set s5 := (Deduplicator.dedupe wordHash sha d0 [a, b, c, e, f]).2 with hs5
    have hsplit := dedupe_append wordHash sha [a, b, c, e, f] [a2] d0
    have hmem : Deduplicator.exact_key a2 ∈ s5.seen_ids := by
      rw [← exact_key_congr ht2]
      exact dedupe_all_kept_mem wordHash sha [a, b, c, e, f] d0 hkeep a
        (by simp)
    have hdup := is_dup_true_of_mem wordHash sha s5 a2 hmem
    have hlast : (Deduplicator.dedupe wordHash sha s5 [a2]).1 = [] := by
      simp [Deduplicator.dedupe, hdup]
    have hcat : ([a, b, c, e, f, a2] : List JobPosting)
        = [a, b, c, e, f] ++ [a2] := rfl
    rw [hcat, hsplit, hlast, hkeep, List.append_nil]

/-- The all-zero word hash, a concrete stand-in for md5 in witnesses. -/
def wh0 : String → ℕ := fun _ => 0

/-- A concrete stand-in for the sha256 hex digest in witnesses. -/
def sha0 : String → String := fun _ => ""

/-- Five pairwise-distinct postings used in the dedup witnesses. -/
def ja : JobPosting :=
  { company := "A", title := "t1", source_job_id := "1",
    source_system := ATSType.greenhouse }

def jb : JobPosting :=
  { company := "A", title := "t2", source_job_id := "2",
    source_system := ATSType.greenhouse }

def jc : JobPosting :=
  { company := "A", title := "t3", source_job_id := "3",
    source_system := ATSType.greenhouse }

def je : JobPosting :=
  { company := "A", title := "t4", source_job_id := "4",
    source_system := ATSType.greenhouse }

def jf : JobPosting :=
  { company := "A", title := "t5", source_job_id := "5",
    source_system := ATSType.greenhouse }

/-- The deduplicator state after recording `ja` from a fresh session. -/
def dW : Deduplicator :=
  { seen_ids := [Deduplicator.exact_key ja],
    seen_hashes := [(Deduplicator.fuzzy_key ja,
      Deduplicator.content_hash wh0 ja)] }

/-- C4 witness: the theorem instantiated at a fresh deduplicator, an exact
copy of `ja`, and five concrete pairwise-distinct postings. -/
theorem C4_exact_duplicate_witness :
    sameTriple ja ja ∧
    Deduplicator.is_duplicate wh0 sha0 {} ja = (false, dW) ∧
    (dW.is_duplicate wh0 sha0 ja).1 = true ∧
    (Deduplicator.dedupe wh0 sha0 {} [ja, jb, jc, je, jf]).1
      = [ja, jb, jc, je, jf] ∧
    (Deduplicator.dedupe wh0 sha0 {} [ja, jb, jc, je, jf, ja]).1
      = [ja, jb, jc, je, jf] := by
  have ht : sameTriple ja ja := ⟨rfl, rfl, rfl⟩
  have h1 : Deduplicator.is_duplicate wh0 sha0 {} ja = (false, dW) := rfl
  have hk : (Deduplicator.dedupe wh0 sha0 {} [ja, jb, jc, je, jf]).1
      = [ja, jb, jc, je, jf] := rfl
  have hmain := C4_exact_duplicate wh0 sha0 {} dW ja ja ht h1
  exact ⟨ht, h1, hmain.1, hk, hmain.2 {} ja jb jc je jf ja ht hk⟩

/-! At most one fingerprint per fuzzy key. -/

lemma assocInsert_keys (k : String) (v : ℕ) (l : List (String × ℕ)) :
    (assocInsert k v l).map Prod.fst
      = if k ∈ l.map Prod.fst then l.map Prod.fst
        else l.map Prod.fst ++ [k] := by
  induction l with
  | nil => simp [assocInsert]
  | cons e rest ih =>
    obtain ⟨k2, v2⟩ := e
    by_cases hk : k2 = k
    · subst hk
      simp [assocInsert]
    · simp only [assocInsert, if_neg hk, List.map_cons, ih]
      by_cases hmem : k ∈ rest.map Prod.fst
      · rw [if_pos hmem, if_pos (by simp [hmem])]
      · rw [if_neg hmem, if_neg (by simp [hmem, Ne.symm hk]), List.cons_append]

lemma assocInsert_keys_nodup (k : String) (v : ℕ) (l : List (String × ℕ))
    (h : (l.map Prod.fst).Nodup) :
    ((assocInsert k v l).map Prod.fst).Nodup := by
  rw [assocInsert_keys]
  by_cases hmem : k ∈ l.map Prod.fst
  · rwa [if_pos hmem]
  · rw [if_neg hmem]
    simp [List.nodup_append, h, hmem]

lemma lookup_assocInsert (k : String) (v : ℕ) (l : List (String × ℕ)) :
    (assocInsert k v l).lookup k = some v := by
  induction l with
  | nil => simp [assocInsert, List.lookup]
  | cons e rest ih =>
    obtain ⟨k2, v2⟩ := e
    by_cases hk : k2 = k
    · subst hk
      simp [assocInsert, List.lookup]
    · simp only [assocInsert, if_neg hk, List.lookup]
      have hbeq : (k == k2) = false := by simpa using Ne.symm hk
      rw [hbeq]
      exact ih

lemma is_dup_keys_nodup (wordHash : String → ℕ) (sha : String → String)
    (d : Deduplicator) (j : JobPosting)
    (h : (d.seen_hashes.map Prod.fst).Nodup) :
    (((d.is_duplicate wordHash sha j).2).seen_hashes.map Prod.fst).Nodup := by
  simp only [Deduplicator.is_duplicate]
  split_ifs with h1 h2 h3
  · exact h
  · exact h
  · exact h
  · exact assocInsert_keys_nodup _ _ _ h

lemma any_eq_lookup (th : ℚ) (fk : String) (ch : ℕ) :
    ∀ l : List (String × ℕ), (l.map Prod.fst).Nodup →
      (l.any (fun e => e.1 == fk &&
          decide (th ≤ simhash_similarity ch e.2 64)))
        = match l.lookup fk with
          | some h2 => decide (th ≤ simhash_similarity ch h2 64)
          | none => false := by
  have hnotmem : ∀ l : List (String × ℕ), fk ∉ l.map Prod.fst →
      (l.any (fun e => e.1 == fk &&
        decide (th ≤ simhash_similarity ch e.2 64))) = false := by
    intro l
    induction l with
    | nil => intro _; rfl
    | cons e rest ih =>
      intro hmem
      obtain ⟨k2, v2⟩ := e
      have hk : ¬ (k2 = fk) := by
        intro he
        exact hmem (by simp [he])
      simp only [List.any_cons]
      rw [ih (fun hm => hmem (by simp [hm]))]
      simp [hk]
  intro l
  induction l with
  | nil => intro _; rfl
  | cons e rest ih =>
    intro hnd
    obtain ⟨k2, v2⟩ := e
    rw [List.map_cons, List.nodup_cons] at hnd
    by_cases hk : k2 = fk
    · subst hk
      simp only [List.any_cons, List.lookup]
      rw [hnotmem rest hnd.1]
      simp
    · simp only [List.any_cons, List.lookup]
      have hbeq : (fk == k2) = false := by simpa using Ne.symm hk
      have hbeq2 : (k2 == fk) = false := by simpa using hk
      rw [hbeq, hbeq2]
      rw [← ih hnd.2]
      simp

lemma dedupe_keys_nodup (wordHash : String → ℕ) (sha : String → String)
    (jobs : List JobPosting) :
    ∀ d : Deduplicator, (d.seen_hashes.map Prod.fst).Nodup →
      ((Deduplicator.dedupe wordHash sha d jobs).2.seen_hashes.map
        Prod.fst).Nodup := by
  induction jobs with
  | nil => exact fun d h => h
  | cons j js ih =>
    intro d h
    exact ih _ (is_dup_keys_nodup wordHash sha d j h)

/-- C7: the session's fuzzy-key map keeps at most one fingerprint per fuzzy
key: starting from any state with distinct fuzzy keys (in particular a fresh
session), the keys stay pairwise distinct under any call sequence; a
non-duplicate call stores its own fingerprint under its fuzzy key (most
recent wins) while a duplicate verdict leaves the state untouched; and with
distinct keys the fuzzy-similarity loop is equivalent to consulting only the
single stored fingerprint for the job's fuzzy key. -/
theorem C7_single_fingerprint_per_key (wordHash : String → ℕ)
    (sha : String → String) :
    (∀ (d : Deduplicator) (jobs : List JobPosting),
      (d.seen_hashes.map Prod.fst).Nodup →
      ((Deduplicator.dedupe wordHash sha d jobs).2.seen_hashes.map
        Prod.fst).Nodup) ∧
    (∀ (d d' : Deduplicator) (j : JobPosting),
      d.is_duplicate wordHash sha j = (false, d') →
      d'.seen_hashes.lookup (Deduplicator.fuzzy_key j)
        = some (Deduplicator.content_hash wordHash j)) ∧
    (∀ (d : Deduplicator) (j : JobPosting),
      (d.is_duplicate wordHash sha j).1 = true →
      (d.is_duplicate wordHash sha j).2 = d) ∧
    (∀ (d : Deduplicator) (fk : String) (ch : ℕ),
      (d.seen_hashes.map Prod.fst).Nodup →
      d.fuzzyHit fk ch
        = match d.seen_hashes.lookup fk with
          | some h2 =>
            decide (d.similarity_threshold ≤ simhash_similarity ch h2 64)
          | none => false) := by
  refine ⟨fun d jobs h => dedupe_keys_nodup wordHash sha jobs d h,
    ?_, ?_, ?_⟩
  · intro d d' j h
    obtain ⟨-, -, -, hh⟩ := is_dup_false_state wordHash sha d d' j h
    rw [hh]
    exact lookup_assocInsert _ _ _
  · intro d j h
    simp only [Deduplicator.is_duplicate] at h ⊢
    split_ifs at h ⊢ with h1 h2 h3
    all_goals first | rfl | simp at h
  · intro d fk ch h
    exact any_eq_lookup d.similarity_threshold fk ch d.seen_hashes h

/-- C7 witness: concrete instances — a fresh session keeps distinct fuzzy
keys over a run, the recorded fingerprint is retrievable by lookup, and the
fuzzy loop agrees with the single-lookup form. -/
theorem C7_single_fingerprint_per_key_witness :
    ((Deduplicator.dedupe wh0 sha0 {} [ja, jb, jc, ja]).2.seen_hashes.map
      Prod.fst).Nodup ∧
    dW.seen_hashes.lookup (Deduplicator.fuzzy_key ja)
      = some (Deduplicator.content_hash wh0 ja) ∧
    dW.fuzzyHit (Deduplicator.fuzzy_key ja) (Deduplicator.content_hash wh0 ja)
      = match dW.seen_hashes.lookup (Deduplicator.fuzzy_key ja) with
        | some h2 =>
          decide (dW.similarity_threshold
            ≤ simhash_similarity (Deduplicator.content_hash wh0 ja) h2 64)
        | none => false := by
  refine ⟨(C7_single_fingerprint_per_key wh0 sha0).1 {} [ja, jb, jc, ja]
      (by decide), ?_, ?_⟩
  · exact (C7_single_fingerprint_per_key wh0 sha0).2.1 {} dW ja rfl
  · exact (C7_single_fingerprint_per_key wh0 sha0).2.2.2 dW
      (Deduplicator.fuzzy_key ja) (Deduplicator.content_hash wh0 ja)
      (by decide)

/-! Batch scoring: the stable descending sort. -/

lemma insertDesc_perm (x : ScoredJobPosting) (l : List ScoredJobPosting) :
    (insertDesc x l).Perm (x :: l) := by
  induction l with
  | nil => exact List.Perm.refl _
  | cons y ys ih =>
    simp only [insertDesc]
    split_ifs with hxy
    · exact ((ih.cons y).trans (List.Perm.swap x y ys))
    · exact List.Perm.refl _

lemma mem_insertDesc {z x : ScoredJobPosting} {l : List ScoredJobPosting} :
    z ∈ insertDesc x l ↔ z = x ∨ z ∈ l := by
  rw [(insertDesc_perm x l).mem_iff]
  simp

lemma sortDesc_perm (l : List ScoredJobPosting) : (sortDesc l).Perm l := by
  induction l with
  | nil => exact List.Perm.refl _
  | cons x xs ih =>
    exact (insertDesc_perm x (sortDesc xs)).trans (ih.cons x)

lemma pairwise_insertDesc (x : ScoredJobPosting)
    (l : List ScoredJobPosting)
    (h : l.Pairwise (fun a b => b.final_score ≤ a.final_score)) :
    (insertDesc x l).Pairwise (fun a b => b.final_score ≤ a.final_score) := by
  induction l with
  | nil => simp [insertDesc]
  | cons y ys ih =>
    rw [List.pairwise_cons] at h
    obtain ⟨hy, hys⟩ := h
    simp only [insertDesc]
    split_ifs with hxy
    · rw [List.pairwise_cons]
      refine ⟨?_, ih hys⟩
      intro z hz
      rcases mem_insertDesc.mp hz with hz1 | hz2
      · subst hz1
        exact le_of_lt hxy
      · exact hy z hz2
    · rw [List.pairwise_cons]
      refine ⟨?_, ?_⟩
      · intro z hz
        rcases List.mem_cons.mp hz with hz1 | hz2
        · subst hz1
          exact not_lt.mp hxy
        · exact le_trans (hy z hz2) (not_lt.mp hxy)
      · rw [List.pairwise_cons]
        exact ⟨hy, hys⟩

lemma pairwise_sortDesc (l : List ScoredJobPosting) :
    (sortDesc l).Pairwise (fun a b => b.final_score ≤ a.final_score) := by
  induction l with
  | nil => simp [sortDesc]
  | cons x xs ih => exact pairwise_insertDesc x (sortDesc xs) ih

lemma filter_insertDesc (x : ScoredJobPosting) (l : List ScoredJobPosting)
    (s : ℝ) :
    (insertDesc x l).filter (fun y => decide (y.final_score = s))
      = if x.final_score = s
        then x :: l.filter (fun y => decide (y.final_score = s))
        else l.filter (fun y => decide (y.final_score = s)) := by
  induction l with
  | nil =>
    by_cases hx : x.final_score = s
    · simp [insertDesc, List.filter_cons, hx]
    · simp [insertDesc, List.filter_cons, hx]
  | cons y ys ih =>
    simp only [insertDesc]
    by_cases hxy : x.final_score < y.final_score
    · rw [if_pos hxy]
      by_cases hx : x.final_score = s
      · have hy : ¬ (y.final_score = s) := by
          intro he
          rw [hx] at hxy
          rw [he] at hxy
          exact lt_irrefl s hxy
        simp [List.filter_cons, hx, hy, ih]
      · by_cases hy : y.final_score = s
        · simp [List.filter_cons, hx, hy, ih]
        · simp [List.filter_cons, hx, hy, ih]
    · rw [if_neg hxy]
      by_cases hx : x.final_score = s
      · simp [List.filter_cons, hx]
      · simp [List.filter_cons, hx]

lemma filter_sortDesc (l : List ScoredJobPosting) (s : ℝ) :
    (sortDesc l).filter (fun y => decide (y.final_score = s))
      = l.filter (fun y => decide (y.final_score = s)) := by
  induction l with
  | nil => rfl
  | cons x xs ih =>
    simp only [sortDesc]
    rw [filter_insertDesc, List.filter_cons]
    by_cases hx : x.final_score = s
    · rw [if_pos hx, ih]
      simp [hx]
    · rw [if_neg hx, ih]
      simp [hx]

/-- C2: `Scorer.score_batch` returns exactly the scored jobs whose final
score is at least the threshold (the supplied `min_score`, else the
profile's `min_score_threshold`): the output is a permutation of the
filtered scored list, it is sorted by final score descending, and the sort
is stable — filtering the output to any fixed final score gives the same
sequence as filtering the in-input-order scored list, so equal-score
entries keep their input order. -/
theorem C2_score_batch_sorted_stable (p : MatchingProfile)
    (prov : EmbProvider) (fmt : ℝ → String) (now : ℝ)
    (cache : Option (List ℝ)) (jobs : List JobPosting)
    (min_score : Option ℝ) :
    (Scorer.score_batch p prov fmt now cache jobs min_score).Pairwise
      (fun a b => b.final_score ≤ a.final_score) ∧
    (Scorer.score_batch p prov fmt now cache jobs min_score).Perm
      ((Scorer.scoreList p prov fmt now cache jobs).1.filter
        (fun x => decide ((match min_score with
          | some m => m
          | none => p.min_score_threshold) ≤ x.final_score))) ∧
    ∀ s : ℝ,
      (Scorer.score_batch p prov fmt now cache jobs min_score).filter
          (fun y => decide (y.final_score = s))
        = ((Scorer.scoreList p prov fmt now cache jobs).1.filter
            (fun x => decide ((match min_score with
              | some m => m
              | none => p.min_score_threshold) ≤ x.final_score))).filter
            (fun y => decide (y.final_score = s)) := by
  refine ⟨pairwise_sortDesc _, sortDesc_perm _, fun s => filter_sortDesc _ s⟩

/-- C6 witness: a posting one hour old (now = 3600, posted = 0) scores above
0.9, and a posting 25 days old scores below 0.3. -/
theorem C6_recency_decay_witness :
    (3600 : ℝ) - 0 = 3600 ∧
    0.9 < RecencyScorer.score 30 3600 (some 0) ∧
    RecencyScorer.score 30 (86400 * 25) (some 0) < 0.3 :=
  ⟨by norm_num,
    (C6_recency_decay 3600 0).2.2.2.2.1 (by norm_num),
    (C6_recency_decay (86400 * 25) 0).2.2.2.2.2 (by norm_num)⟩

end FreshRoles
